import Mathlib

/-!
Verification development for the backtest-platform repository.

The definitions below are shallow embeddings of the analytics code of the
frontend (performance-dashboard page, PerformanceDashboard component,
DrawdownChart, RiskMetricCards, PnLHistogram, LogicBuilder), plus
spec-worded reference definitions used for refinement comparisons, and a
model of the backend execution engine built from the specification (the
backend source is not part of the repository snapshot).

JavaScript numbers are modelled as rationals (ℚ); where NaN/Infinity
behaviour matters (RiskMetricCards) an explicit JSNum type is used.
-/

/-- Trade record as consumed by the dashboard components.  Optional fields
model JS properties that may be undefined; the code reads them with
`t.pnl_pct ?? 0` / truthiness checks. -/
structure Trade where
  pnl_pct : Option ℚ
  entry_time : Option String
  exit_time : Option String
  timestamp : Option String
deriving Repr, DecidableEq

/-- The value `t.pnl_pct ?? 0` (also `t.pnl_pct || 0`: for numbers other
than NaN the two coincide, and NaN does not arise in the rational model). -/
def Trade.pnl (t : Trade) : ℚ := t.pnl_pct.getD 0

/-! ### performance-dashboard page: summaryStats (page.tsx lines 402-416) -/

/-- Count of trades with `(t.pnl_pct ?? 0) > 0` (the `winningTrades` local). -/
def winningCount (ts : List Trade) : ℕ :=
  (ts.filter (fun t => 0 < t.pnl)).length

/-- summaryStats.totalReturn: `trades.reduce((sum, t) => sum + (t.pnl_pct ?? 0), 0)`. -/
def summaryTotalReturn (ts : List Trade) : ℚ :=
  ts.foldl (fun s t => s + t.pnl) 0

/-- summaryStats.winRate: `totalTrades > 0 ? (winningTrades / totalTrades) * 100 : 0`. -/
def summaryWinRate (ts : List Trade) : ℚ :=
  if 0 < ts.length then ((winningCount ts : ℚ) / (ts.length : ℚ)) * 100 else 0

/-- summaryStats.avgReturn: `totalTrades > 0 ? totalReturn / totalTrades : 0`. -/
def summaryAvgReturn (ts : List Trade) : ℚ :=
  if 0 < ts.length then summaryTotalReturn ts / (ts.length : ℚ) else 0

/-! ### PerformanceDashboard component: summary statistics (same formulas,
separate source site: PerformanceDashboard.tsx lines 352-356) -/

/-- PerformanceDashboard totalReturn: `trades.reduce((sum, t) => sum + (t.pnl_pct ?? 0), 0)`. -/
def dashTotalReturn (ts : List Trade) : ℚ :=
  ts.foldl (fun s t => s + t.pnl) 0

/-- PerformanceDashboard winRate: `totalTrades > 0 ? (winningTrades / totalTrades) * 100 : 0`. -/
def dashWinRate (ts : List Trade) : ℚ :=
  if 0 < ts.length then ((winningCount ts : ℚ) / (ts.length : ℚ)) * 100 else 0

/-! ### Spec-worded reference formulas (Performance Engine definitions of the
specification, used for refinement comparison with the UI code) -/

/-- Modelled from the spec: Total Return % = (Π(1 + pnl_i/100) - 1) * 100
across trades (compounded, not summed). -/
def compoundedTotalReturn (ts : List Trade) : ℚ :=
  ((ts.map (fun t => 1 + t.pnl / 100)).prod - 1) * 100

/-- Modelled from the spec: Win Rate = winning trades / total trades * 100;
0 when there are no trades. -/
def specWinRate (ts : List Trade) : ℚ :=
  if ts.length = 0 then 0
  else ((ts.filter (fun t => 0 < t.pnl)).length : ℚ) / (ts.length : ℚ) * 100

/-! ### processDrawdownData (page.tsx lines 207-224) -/

/-- Point of the drawdown series fed to DrawdownChart. -/
structure DrawdownPoint where
  timestamp : String
  drawdown : ℚ
deriving Repr, DecidableEq

/-- JS `x.toFixed(2)` followed by `parseFloat`: rounding to two decimal
places (round half away from zero on the non-negative values arising here). -/
def round2 (q : ℚ) : ℚ := ((round (q * 100) : ℤ) : ℚ) / 100

/-- Truthiness filter `.filter((trade) => trade.exit_time)`: keeps trades
whose exit_time is present and non-empty. -/
def keepExit (t : Trade) : Bool := t.exit_time.getD "" ≠ ""

/-- Sort key `(a.exit_time || "")`. -/
def exitKey (t : Trade) : String := t.exit_time.getD ""

/-- Stable insertion used to model `Array.prototype.sort` (stable per the
ECMAScript spec) with the comparator
`(a, b) => (a.exit_time || "").localeCompare(b.exit_time || "")`,
localeCompare modelled as lexicographic string order. -/
def insertByExitKey (t : Trade) : List Trade → List Trade
  | [] => [t]
  | h :: r => if exitKey t < exitKey h then t :: h :: r else h :: insertByExitKey t r

/-- Stable sort by exit_time. -/
def sortByExitKey (ts : List Trade) : List Trade :=
  ts.foldl (fun acc t => insertByExitKey t acc) []

/-- JS `s.split("T")[0]`: the prefix of s before the first 'T'. -/
def splitAtT (s : String) : String := s.takeWhile (fun c => c ≠ 'T')

/-- Body of the map inside processDrawdownData: running equity starts at 100,
is multiplied by `1 + (trade.pnl_pct || 0) / 100` per trade; peak starts at
100; `drawdown = peak > 0 ? ((peak - equity) / peak) * 100 : 0`, rounded via
toFixed(2)/parseFloat. -/
def pddAux : ℚ → ℚ → List Trade → List DrawdownPoint
  | _, _, [] => []
  | equity, peak, t :: rest =>
    let e := equity * (1 + t.pnl / 100)
    let p := max peak e
    let dd := if 0 < p then (p - e) / p * 100 else 0
    ⟨splitAtT (t.exit_time.getD ""), round2 dd⟩ :: pddAux e p rest

/-- processDrawdownData: filter trades with an exit_time, sort by exit_time,
then build the compounded-equity drawdown series. -/
def processDrawdownData (ts : List Trade) : List DrawdownPoint :=
  pddAux 100 100 (sortByExitKey (ts.filter keepExit))

/-! ### Spec-worded drawdown definitions -/

/-- Modelled from the spec: the equity curve is the cumulative compounded
return sequence of the ordered trades; starting equity 100, each trade
multiplies equity by (1 + pnl_pct/100). -/
def specEquityAux (e : ℚ) : List ℚ → List ℚ
  | [] => []
  | r :: rest =>
    let e2 := e * (1 + r / 100)
    e2 :: specEquityAux e2 rest

/-- Equity curve of a list of per-trade returns, starting from 100. -/
def specEquitySeq (rs : List ℚ) : List ℚ := specEquityAux 100 rs

/-- Running peaks of an equity sequence, seeded with the starting equity. -/
def runningPeaks (p : ℚ) : List ℚ → List ℚ
  | [] => []
  | e :: rest =>
    let p2 := max p e
    p2 :: runningPeaks p2 rest

/-- Modelled from the spec: each point's drawdown is the percentage decline
of the equity from its running peak. -/
def specDrawdownSeq (rs : List ℚ) : List ℚ :=
  ((specEquitySeq rs).zip (runningPeaks 100 (specEquitySeq rs))).map
    (fun pe => (pe.2 - pe.1) / pe.2 * 100)

/-- Modelled from the spec: Max Drawdown = maximum peak-to-trough percentage
decline of the cumulative equity curve built by compounding trade returns in
chronological order. -/
def specMaxDrawdown (rs : List ℚ) : ℚ := (specDrawdownSeq rs).foldl max 0

/-! ### PerformanceDashboard component: drawdownSeries (lines 320-330).
This series accumulates pnl additively (cumulativePnl += pnl), with peak
starting at 0, and emits a non-positive drawdown value. -/

/-- Body of `trades.map` building drawdownSeries: cumulativePnl and peak are
mutable locals starting at 0; the isFinite guard never fires over ℚ. -/
def dashSeriesAux : ℚ → ℚ → ℕ → List Trade → List DrawdownPoint
  | _, _, _, [] => []
  | cum, peak, idx, t :: rest =>
    let c := cum + t.pnl
    let p := max peak c
    let dd := if 0 < p then (c - p) / p * 100 else 0
    let tsStr := t.timestamp.getD ""
    ⟨if tsStr = "" then "T" ++ toString (idx + 1) else tsStr, dd⟩ ::
      dashSeriesAux c p (idx + 1) rest

/-- PerformanceDashboard drawdownSeries. -/
def dashDrawdownSeries (ts : List Trade) : List DrawdownPoint :=
  dashSeriesAux 0 0 0 ts

/-! ### DrawdownChart component (DrawdownChart.tsx lines 29-47) -/

/-- Hard-coded sample data substituted when the incoming data array is empty. -/
def ddSampleData : List DrawdownPoint :=
  [⟨"2024-01", 0⟩, ⟨"2024-02", -2.5⟩, ⟨"2024-03", -1.2⟩, ⟨"2024-04", -5.8⟩,
   ⟨"2024-05", -3.1⟩, ⟨"2024-06", -0.8⟩, ⟨"2024-07", -4.2⟩, ⟨"2024-08", -2.3⟩,
   ⟨"2024-09", -1.5⟩, ⟨"2024-10", -3.7⟩, ⟨"2024-11", -0.9⟩, ⟨"2024-12", -2.1⟩]

/-- DrawdownChart sampleData: `data.length > 0 ? data : [...fallback]`. -/
def ddChartData (data : List DrawdownPoint) : List DrawdownPoint :=
  if 0 < data.length then data else ddSampleData

/-- JS `Math.min(...l)` for the non-empty lists arising in DrawdownChart
(the empty case, which JS maps to Infinity, is unreachable there because of
the sample-data fallback and is modelled as 0). -/
def mathMin : List ℚ → ℚ
  | [] => 0
  | h :: t => t.foldl min h

/-- DrawdownChart maxDrawdown: `Math.min(...sampleData.map(d => d.drawdown))`. -/
def ddChartMaxDrawdown (data : List DrawdownPoint) : ℚ :=
  mathMin ((ddChartData data).map DrawdownPoint.drawdown)

/-! ### RiskMetricCards (validMetrics filter) -/

/-- JS runtime number: finite, NaN, or a signed infinity. -/
inductive JSNum where
  | finite (q : ℚ)
  | nan
  | inf
  | ninf
deriving Repr, DecidableEq

/-- The JS isNaN test on a number. -/
def JSNum.isNaN : JSNum → Bool
  | .nan => true
  | _ => false

/-- RiskMetricCards validMetrics:
`Object.entries(metrics).filter(([_, v]) => v !== undefined && v !== null && !isNaN(v))`.
An entry value of none models undefined/null. -/
def validMetrics (ms : List (String × Option JSNum)) : List (String × Option JSNum) :=
  ms.filter (fun p =>
    match p.2 with
    | none => false
    | some v => !v.isNaN)

/-! ### PnLHistogram (createHistogramData and aggregate stats) -/

/-- Histogram bar datum. -/
structure HistBin where
  range : String
  count : ℕ
  color : String
deriving Repr, DecidableEq

/-- Bin boundary specification; none models -Infinity / Infinity ends. -/
structure BinDef where
  lo : Option ℚ
  hi : Option ℚ
  range : String
  color : String

/-- The eight bins of createHistogramData. -/
def binDefs : List BinDef :=
  [⟨none, some (-5), "< -5%", "#dc2626"⟩,
   ⟨some (-5), some (-3), "-5% to -3%", "#ea580c"⟩,
   ⟨some (-3), some (-1), "-3% to -1%", "#f59e0b"⟩,
   ⟨some (-1), some 0, "-1% to 0%", "#fbbf24"⟩,
   ⟨some 0, some 1, "0% to 1%", "#84cc16"⟩,
   ⟨some 1, some 3, "1% to 3%", "#22c55e"⟩,
   ⟨some 3, some 5, "3% to 5%", "#16a34a"⟩,
   ⟨some 5, none, "> 5%", "#15803d"⟩]

/-- Membership test `val > bin.min && val <= bin.max` (strict below, weak
above; an absent bound models the infinite end). -/
def inBin (lo hi : Option ℚ) (v : ℚ) : Bool :=
  (match lo with
   | none => true
   | some m => decide (m < v)) &&
  (match hi with
   | none => true
   | some M => decide (v ≤ M))

/-- Demo data returned by createHistogramData when the trade list is empty. -/
def histDemoData : List HistBin :=
  [⟨"< -5%", 2, "#dc2626"⟩, ⟨"-5% to -3%", 5, "#ea580c"⟩,
   ⟨"-3% to -1%", 8, "#f59e0b"⟩, ⟨"-1% to 0%", 12, "#fbbf24"⟩,
   ⟨"0% to 1%", 15, "#84cc16"⟩, ⟨"1% to 3%", 10, "#22c55e"⟩,
   ⟨"3% to 5%", 6, "#16a34a"⟩, ⟨"> 5%", 3, "#15803d"⟩]

/-- createHistogramData: demo fallback for an empty trade list, otherwise
bin counts of the `pnl_pct ?? 0` values. -/
def createHistogramData (ts : List Trade) : List HistBin :=
  if ts.length = 0 then histDemoData
  else
    binDefs.map (fun b =>
      ⟨b.range, ((ts.map Trade.pnl).filter (inBin b.lo b.hi)).length, b.color⟩)

/-- PnLHistogram totalTrades: `histogramData.reduce((sum, bin) => sum + bin.count, 0)`. -/
def histTotalTrades (ts : List Trade) : ℕ :=
  (createHistogramData ts).foldl (fun s b => s + b.count) 0

/-- PnLHistogram winningTrades: sum of counts of the bins at index >= 4. -/
def histWinningTrades (ts : List Trade) : ℕ :=
  (((createHistogramData ts).enum).filter (fun p => 4 ≤ p.1)).foldl
    (fun s p => s + p.2.count) 0

/-- PnLHistogram losingTrades: sum of counts of the bins at index < 4. -/
def histLosingTrades (ts : List Trade) : ℕ :=
  (((createHistogramData ts).enum).filter (fun p => p.1 < 4)).foldl
    (fun s p => s + p.2.count) 0

/-- PnLHistogram winRate:
`totalTrades > 0 ? (winningTrades / totalTrades) * 100 : 50`. -/
def histWinRate (ts : List Trade) : ℚ :=
  if 0 < histTotalTrades ts then
    ((histWinningTrades ts : ℚ) / (histTotalTrades ts : ℚ)) * 100
  else 50

/-! ### LogicBuilder OPERATORS (LogicBuilder.tsx lines 15-23) -/

/-- Dropdown option of the operator selector. -/
structure OperatorOption where
  value : String
  label : String
deriving Repr, DecidableEq

/-- The operator list offered by the strategy builder UI. -/
def OPERATORS : List OperatorOption :=
  [⟨">", "Greater than (>)"⟩,
   ⟨"<", "Less than (<)"⟩,
   ⟨">=", "Greater or equal (>=)"⟩,
   ⟨"<=", "Less or equal (<=)"⟩,
   ⟨"==", "Equal to (==)"⟩,
   ⟨"cross_above", "Cross above"⟩,
   ⟨"cross_below", "Cross below"⟩]

/-- Modelled from the spec: operator ∈ {>, <, >=, <=, ==, !=, cross_above,
cross_below}. -/
def specOperators : List String :=
  [">", "<", ">=", "<=", "==", "!=", "cross_above", "cross_below"]

/-! ### processHeatmapData (page.tsx lines 180-202).  The dayjs weekday /
ISO-week formatting of an entry_time string is an external library call and
is abstracted as a parameter fmt; the JS Map is modelled as an association
list with Map.set insertion-order semantics. -/

/-- Heatmap cell datum produced by processHeatmapData. -/
structure HeatCell where
  x : String
  y : String
  value : ℚ
deriving Repr, DecidableEq

/-- JS `map.get(key)` on an insertion-ordered association list. -/
def mapGet (m : List (String × ℚ)) (k : String) : Option ℚ :=
  (m.find? (fun p => p.1 = k)).map (fun p => p.2)

/-- JS `map.set(key, v)`: updates the existing entry in place or appends. -/
def mapSet (m : List (String × ℚ)) (k : String) (v : ℚ) : List (String × ℚ) :=
  if m.any (fun p => p.1 = k) then m.map (fun p => if p.1 = k then (k, v) else p)
  else m ++ [(k, v)]

/-- Body of the forEach in processHeatmapData: trades without an entry_time
are skipped; the key is weekday and week joined by a bar character; the
accumulated pnl for the key is incremented. -/
def heatStep (fmt : String → String × String) (m : List (String × ℚ)) (t : Trade) :
    List (String × ℚ) :=
  if t.entry_time.getD "" = "" then m
  else
    let key := (fmt (t.entry_time.getD "")).1 ++ "|" ++ (fmt (t.entry_time.getD "")).2
    mapSet m key ((mapGet m key).getD 0 + t.pnl)

/-- processHeatmapData: aggregate pnl per weekday-week key, then emit cells
with the value rounded via toFixed(2)/parseFloat. -/
def processHeatmapData (fmt : String → String × String) (ts : List Trade) :
    List HeatCell :=
  (ts.foldl (heatStep fmt) []).map (fun kv =>
    ⟨(kv.1.splitOn "|").getD 0 "", (kv.1.splitOn "|").getD 1 "", round2 kv.2⟩)

/-! ### Array-store model of the JS calls.  JS arrays are heap objects; the
functions above receive a reference to the caller's trades array.
Array.prototype.filter allocates a fresh array, while Array.prototype.sort
mutates its receiver in place.  The programs below make those effects
explicit over a store of arrays so that absence of caller-visible mutation
is a provable statement rather than a modelling artefact. -/

/-- Store of trade arrays, addressed by index. -/
abbrev Heap := List (List Trade)

/-- Read the array at an address (an absent address reads as empty). -/
def readArr (h : Heap) (a : ℕ) : List Trade := h.getD a []

/-- Overwrite the array at an address. -/
def writeArr (h : Heap) (a : ℕ) (v : List Trade) : Heap := h.set a v

/-- Allocate a fresh array, returning the new store and its address. -/
def allocArr (h : Heap) (v : List Trade) : Heap × ℕ := (h ++ [v], h.length)

/-- processDrawdownData as a store program: filter allocates a fresh array,
sort mutates that fresh array in place (its receiver is the filter result,
not the caller's array), and the map produces the output list. -/
def pddProg (h : Heap) (a : ℕ) : Heap × List DrawdownPoint :=
  let filtered := (readArr h a).filter keepExit
  let al := allocArr h filtered
  let h2 := writeArr al.1 al.2 (sortByExitKey (readArr al.1 al.2))
  (h2, pddAux 100 100 (readArr h2 al.2))

/-- processHeatmapData as a store program: it only reads its argument
(forEach and map do not write). -/
def heatProg (fmt : String → String × String) (h : Heap) (a : ℕ) :
    Heap × List HeatCell :=
  (h, processHeatmapData fmt (readArr h a))

/-- createHistogramData as a store program: it only reads its argument. -/
def histProg (h : Heap) (a : ℕ) : Heap × List HistBin :=
  (h, createHistogramData (readArr h a))

/-! ### Execution Engine, modelled from the spec.  The backend engine source
is not part of the repository snapshot; the state machine below follows
section 4.3 of the specification: FLAT/OPEN per symbol, entry at bar close
with adverse slippage when the entry flag is set and capital is available,
exit checks on every bar after entry in the priority order stop-loss,
take-profit, rule exit, and a force-close of a still-open position at the
final bar's close with no slippage, flagged on the trade. -/

/-- Modelled from the spec: OHLCV bar; timestamps are strictly increasing
along a series. -/
structure Bar where
  ts : ℕ
  openP : ℚ
  high : ℚ
  low : ℚ
  close : ℚ
  volume : ℚ
deriving Repr, DecidableEq

/-- Modelled from the spec: execution configuration (slippage and fee in
basis points, position size as percent of capital, optional protective
percentages). -/
structure ExecCfg where
  slippage : ℚ
  fee : ℚ
  capital : ℚ
  quantityPct : ℚ
  takeProfit : Option ℚ
  stopLoss : Option ℚ
deriving Repr, DecidableEq

/-- Modelled from the spec: transient open position (long only). -/
structure Position where
  entryTs : ℕ
  entryPrice : ℚ
  qty : ℚ
  entryFee : ℚ
deriving Repr, DecidableEq

/-- Modelled from the spec: completed trade; forced marks an end-of-series
force-close. -/
structure EngTrade where
  entryTs : ℕ
  exitTs : ℕ
  entryPrice : ℚ
  exitPrice : ℚ
  qty : ℚ
  feePaid : ℚ
  pnlPct : ℚ
  forced : Bool
deriving Repr, DecidableEq

/-- Build the trade emitted on an exit: pnl_pct is the raw price return
minus the capital-relative impact of entry and exit fees. -/
def closeTrade (cfg : ExecCfg) (p : Position) (b : Bar) (price : ℚ) (forced : Bool) :
    EngTrade :=
  let exitFee := price * p.qty * cfg.fee / 10000
  ⟨p.entryTs, b.ts, p.entryPrice, price, p.qty, p.entryFee + exitFee,
   (price - p.entryPrice) / p.entryPrice * 100 -
     (p.entryFee + exitFee) / (p.entryPrice * p.qty) * 100,
   forced⟩

/-- Close the open position at the given fill price and return to FLAT,
crediting the realized proceeds net of the exit fee to capital. -/
def exitWith (cfg : ExecCfg) (p : Position) (b : Bar) (price : ℚ) (cap : ℚ) :
    List EngTrade × Option Position × ℚ :=
  ([closeTrade cfg p b price false], none,
   cap + (price - p.entryPrice) * p.qty - price * p.qty * cfg.fee / 10000)

/-- One bar of the state machine.  While OPEN, exits are checked in the
priority order stop-loss (intrabar low), take-profit (intrabar high), rule
exit (at close with adverse slippage); entry signals are ignored.  While
FLAT, an entry flag with available capital opens a position at close with
adverse slippage, paying the entry fee. -/
def stepBar (cfg : ExecCfg) (entryF exitF : ℕ → Bool) (i : ℕ) (b : Bar)
    (pos : Option Position) (cap : ℚ) : List EngTrade × Option Position × ℚ :=
  match pos with
  | some p =>
    if cfg.stopLoss.isSome && decide (b.low ≤ p.entryPrice * (1 - cfg.stopLoss.getD 0 / 100)) then
      exitWith cfg p b (p.entryPrice * (1 - cfg.stopLoss.getD 0 / 100)) cap
    else if cfg.takeProfit.isSome && decide (p.entryPrice * (1 + cfg.takeProfit.getD 0 / 100) ≤ b.high) then
      exitWith cfg p b (p.entryPrice * (1 + cfg.takeProfit.getD 0 / 100)) cap
    else if exitF i then
      exitWith cfg p b (b.close * (1 - cfg.slippage / 10000)) cap
    else ([], some p, cap)
  | none =>
    if entryF i && decide (0 < cap) then
      let price := b.close * (1 + cfg.slippage / 10000)
      let qty := cap * (cfg.quantityPct / 100) / price
      ([], some ⟨b.ts, price, qty, price * qty * cfg.fee / 10000⟩,
       cap - price * qty * cfg.fee / 10000)
    else ([], none, cap)

/-- Force-close a position still open after the final bar, at that bar's
close with no slippage, flagged as forced. -/
def forceClose (cfg : ExecCfg) (pos : Option Position) (b : Bar) : List EngTrade :=
  match pos with
  | none => []
  | some p => [closeTrade cfg p b b.close true]

/-- The bar loop: process each bar in order; when the series is exhausted a
still-open position is force-closed at the last bar. -/
def runAux (cfg : ExecCfg) (entryF exitF : ℕ → Bool) :
    ℕ → Option Position → ℚ → List Bar → List EngTrade
  | _, _, _, [] => []
  | i, pos, cap, b :: rest =>
    let r := stepBar cfg entryF exitF i b pos cap
    match rest with
    | [] => r.1 ++ forceClose cfg r.2.1 b
    | _ :: _ => r.1 ++ runAux cfg entryF exitF (i + 1) r.2.1 r.2.2 rest

/-- Run a backtest over a bar series with per-bar entry/exit flags. -/
def runEngine (cfg : ExecCfg) (entryF exitF : ℕ → Bool) (bars : List Bar) :
    List EngTrade :=
  runAux cfg entryF exitF 0 none cfg.capital bars

/-! ### Concrete inputs used by counterexamples and witnesses -/

/-- Two winning trades of 10 percent each. -/
def c1trades : List Trade := [⟨some 10, none, none, none⟩, ⟨some 10, none, none, none⟩]

/-- A 10 percent gain followed by a 10 percent loss, with exit dates. -/
def c2trades : List Trade :=
  [⟨some 10, none, some "2024-01-01", none⟩, ⟨some (-10), none, some "2024-01-02", none⟩]

/-- A 10 percent gain followed by a 10 percent loss, with timestamps. -/
def c3trades : List Trade :=
  [⟨some 10, none, none, some "a"⟩, ⟨some (-10), none, none, some "b"⟩]

/-- One winning and one losing trade. -/
def c5witnessTrades : List Trade :=
  [⟨some 2, none, none, none⟩, ⟨some (-1), none, none, none⟩]

/-- A winner, a breakeven trade and a large loser. -/
def c9witnessTrades : List Trade :=
  [⟨some 2, none, none, none⟩, ⟨some 0, none, none, none⟩, ⟨some (-7), none, none, none⟩]

/-- Frictionless configuration used by the engine runs below. -/
def c8wcfg : ExecCfg := ⟨0, 0, 10000, 100, none, none⟩

/-- Two bars with strictly increasing timestamps. -/
def c8wbars : List Bar := [⟨1, 10, 11, 9, 10, 0⟩, ⟨2, 10, 12, 9, 11, 0⟩]

/-- Frictionless configuration for the single-bar run. -/
def c8cfg : ExecCfg := ⟨0, 0, 10000, 100, none, none⟩

/-- A single price bar at timestamp 5. -/
def c8bar : Bar := ⟨5, 1, 1, 1, 1, 0⟩

/-- A store holding one trades array at address 0. -/
def c10heap : Heap := [[⟨some 1, none, some "2024-01-01", none⟩]]

/-! ## Helper lemmas -/

/-- Folding addition of pnl values equals the accumulator plus the list sum. -/
lemma foldl_add_pnl (ts : List Trade) (a : ℚ) :
    ts.foldl (fun s t => s + t.pnl) a = a + (ts.map Trade.pnl).sum := by
  induction ts generalizing a with
  | nil => simp
  | cons t ts ih => simp [ih, add_assoc]

/-- Filtering a cons adds an indicator to the filtered length. -/
lemma length_filter_cons (p : ℚ → Bool) (v : ℚ) (l : List ℚ) :
    ((v :: l).filter p).length = (if p v then 1 else 0) + (l.filter p).length := by
  rw [List.filter_cons]
  split
  · simp [Nat.add_comm]
  · simp

/-- Every rational lies in exactly one of the eight histogram intervals. -/
lemma binPoint (v : ℚ) :
    ((if v ≤ -5 then 1 else 0) : ℕ)
    + (if -5 < v ∧ v ≤ -3 then 1 else 0)
    + (if -3 < v ∧ v ≤ -1 then 1 else 0)
    + (if -1 < v ∧ v ≤ 0 then 1 else 0)
    + (if 0 < v ∧ v ≤ 1 then 1 else 0)
    + (if 1 < v ∧ v ≤ 3 then 1 else 0)
    + (if 3 < v ∧ v ≤ 5 then 1 else 0)
    + (if 5 < v then 1 else 0) = 1 := by
  rcases le_or_lt v (-5) with h0 | h0
  · have n1 : ¬(-5 < v) := not_lt.2 h0
    have n2 : ¬(-3 < v) := by intro hc; linarith
    have n3 : ¬(-1 < v) := by intro hc; linarith
    have n4 : ¬(0 < v) := by intro hc; linarith
    have n5 : ¬(1 < v) := by intro hc; linarith
    have n6 : ¬(3 < v) := by intro hc; linarith
    have n7 : ¬(5 < v) := by intro hc; linarith
    simp [h0, n1, n2, n3, n4, n5, n6, n7]
  rcases le_or_lt v (-3) with h1 | h1
  · have p0 : ¬(v ≤ -5) := not_le.2 h0
    have n2 : ¬(-3 < v) := not_lt.2 h1
    have n3 : ¬(-1 < v) := by intro hc; linarith
    have n4 : ¬(0 < v) := by intro hc; linarith
    have n5 : ¬(1 < v) := by intro hc; linarith
    have n6 : ¬(3 < v) := by intro hc; linarith
    have n7 : ¬(5 < v) := by intro hc; linarith
    simp [p0, h0, h1, n2, n3, n4, n5, n6, n7]
  rcases le_or_lt v (-1) with h2 | h2
  · have p0 : ¬(v ≤ -5) := by intro hc; linarith
    have p1 : ¬(v ≤ -3) := not_le.2 h1
    have n3 : ¬(-1 < v) := not_lt.2 h2
    have n4 : ¬(0 < v) := by intro hc; linarith
    have n5 : ¬(1 < v) := by intro hc; linarith
    have n6 : ¬(3 < v) := by intro hc; linarith
    have n7 : ¬(5 < v) := by intro hc; linarith
    simp [p0, p1, h1, h2, n3, n4, n5, n6, n7]
  rcases le_or_lt v 0 with h3 | h3
  · have p0 : ¬(v ≤ -5) := by intro hc; linarith
    have p1 : ¬(v ≤ -3) := by intro hc; linarith
    have p2 : ¬(v ≤ -1) := not_le.2 h2
    have n4 : ¬(0 < v) := not_lt.2 h3
    have n5 : ¬(1 < v) := by intro hc; linarith
    have n6 : ¬(3 < v) := by intro hc; linarith
    have n7 : ¬(5 < v) := by intro hc; linarith
    simp [p0, p1, p2, h2, h3, n4, n5, n6, n7]
  rcases le_or_lt v 1 with h4 | h4
  · have p0 : ¬(v ≤ -5) := by intro hc; linarith
    have p1 : ¬(v ≤ -3) := by intro hc; linarith
    have p2 : ¬(v ≤ -1) := by intro hc; linarith
    have p3 : ¬(v ≤ 0) := not_le.2 h3
    have n5 : ¬(1 < v) := not_lt.2 h4
    have n6 : ¬(3 < v) := by intro hc; linarith
    have n7 : ¬(5 < v) := by intro hc; linarith
    simp [p0, p1, p2, p3, h3, h4, n5, n6, n7]
  rcases le_or_lt v 3 with h5 | h5
  · have p0 : ¬(v ≤ -5) := by intro hc; linarith
    have p1 : ¬(v ≤ -3) := by intro hc; linarith
    have p2 : ¬(v ≤ -1) := by intro hc; linarith
    have p3 : ¬(v ≤ 0) := by intro hc; linarith
    have p4 : ¬(v ≤ 1) := not_le.2 h4
    have n6 : ¬(3 < v) := not_lt.2 h5
    have n7 : ¬(5 < v) := by intro hc; linarith
    simp [p0, p1, p2, p3, p4, h4, h5, n6, n7]
  rcases le_or_lt v 5 with h6 | h6
  · have p0 : ¬(v ≤ -5) := by intro hc; linarith
    have p1 : ¬(v ≤ -3) := by intro hc; linarith
    have p2 : ¬(v ≤ -1) := by intro hc; linarith
    have p3 : ¬(v ≤ 0) := by intro hc; linarith
    have p4 : ¬(v ≤ 1) := by intro hc; linarith
    have p5 : ¬(v ≤ 3) := not_le.2 h5
    have n7 : ¬(5 < v) := not_lt.2 h6
    simp [p0, p1, p2, p3, p4, p5, h5, h6, n7]
  · have p0 : ¬(v ≤ -5) := by intro hc; linarith
    have p1 : ¬(v ≤ -3) := by intro hc; linarith
    have p2 : ¬(v ≤ -1) := by intro hc; linarith
    have p3 : ¬(v ≤ 0) := by intro hc; linarith
    have p4 : ¬(v ≤ 1) := by intro hc; linarith
    have p5 : ¬(v ≤ 3) := by intro hc; linarith
    have p6 : ¬(v ≤ 5) := not_le.2 h6
    simp [p0, p1, p2, p3, p4, p5, p6, h6]

/-- Indicator of a half-open interval with an infinite lower end. -/
lemma if_inBin_ns (M v : ℚ) :
    ((if inBin none (some M) v then 1 else 0) : ℕ) = if v ≤ M then 1 else 0 := by
  simp [inBin]

/-- Indicator of a bounded half-open interval. -/
lemma if_inBin_ss (m M v : ℚ) :
    ((if inBin (some m) (some M) v then 1 else 0) : ℕ) = if m < v ∧ v ≤ M then 1 else 0 := by
  simp [inBin, Bool.and_eq_true, decide_eq_true_eq]

/-- Indicator of a half-open interval with an infinite upper end. -/
lemma if_inBin_sn (m v : ℚ) :
    ((if inBin (some m) none v then 1 else 0) : ℕ) = if m < v then 1 else 0 := by
  simp [inBin]

/-- The eight bin counts of a value list sum to its length. -/
lemma counts_total (l : List ℚ) :
    (l.filter (inBin none (some (-5)))).length
    + (l.filter (inBin (some (-5)) (some (-3)))).length
    + (l.filter (inBin (some (-3)) (some (-1)))).length
    + (l.filter (inBin (some (-1)) (some 0))).length
    + (l.filter (inBin (some 0) (some 1))).length
    + (l.filter (inBin (some 1) (some 3))).length
    + (l.filter (inBin (some 3) (some 5))).length
    + (l.filter (inBin (some 5) none)).length = l.length := by
  induction l with
  | nil => rfl
  | cons v l ih =>
    simp only [length_filter_cons, if_inBin_ns, if_inBin_ss, if_inBin_sn, List.length_cons]
    have hb := binPoint v
    omega

/-- The four upper intervals together cover exactly the positive values. -/
lemma winPoint (v : ℚ) :
    ((if 0 < v ∧ v ≤ 1 then 1 else 0) : ℕ)
    + (if 1 < v ∧ v ≤ 3 then 1 else 0)
    + (if 3 < v ∧ v ≤ 5 then 1 else 0)
    + (if 5 < v then 1 else 0) = if 0 < v then 1 else 0 := by
  rcases le_or_lt v 0 with h0 | h0
  · have n1 : ¬(0 < v) := not_lt.2 h0
    have n2 : ¬(1 < v) := by intro hc; linarith
    have n3 : ¬(3 < v) := by intro hc; linarith
    have n4 : ¬(5 < v) := by intro hc; linarith
    simp [n1, n2, n3, n4]
  rcases le_or_lt v 1 with h1 | h1
  · have n2 : ¬(1 < v) := not_lt.2 h1
    have n3 : ¬(3 < v) := by intro hc; linarith
    have n4 : ¬(5 < v) := by intro hc; linarith
    simp [h0, h1, n2, n3, n4]
  rcases le_or_lt v 3 with h2 | h2
  · have p1 : ¬(v ≤ 1) := not_le.2 h1
    have n3 : ¬(3 < v) := not_lt.2 h2
    have n4 : ¬(5 < v) := by intro hc; linarith
    simp [h0, h1, h2, p1, n3, n4]
  rcases le_or_lt v 5 with h3 | h3
  · have p1 : ¬(v ≤ 1) := by intro hc; linarith
    have p2 : ¬(v ≤ 3) := not_le.2 h2
    have n4 : ¬(5 < v) := not_lt.2 h3
    simp [h0, h2, h3, p1, p2, n4]
  · have p1 : ¬(v ≤ 1) := by intro hc; linarith
    have p2 : ¬(v ≤ 3) := by intro hc; linarith
    have p3 : ¬(v ≤ 5) := not_le.2 h3
    simp [h0, h3, p1, p2, p3]

/-- The counts of the four upper bins sum to the count of positive values. -/
lemma counts_win (l : List ℚ) :
    (l.filter (inBin (some 0) (some 1))).length
    + (l.filter (inBin (some 1) (some 3))).length
    + (l.filter (inBin (some 3) (some 5))).length
    + (l.filter (inBin (some 5) none)).length
    = (l.filter (fun v => decide (0 < v))).length := by
  induction l with
  | nil => rfl
  | cons v l ih =>
    simp only [length_filter_cons, if_inBin_ss, if_inBin_sn, decide_eq_true_eq]
    have hw := winPoint v
    omega

/-- Counting positive pnl values through the map equals winningCount. -/
lemma count_pos_map (ts : List Trade) :
    ((ts.map Trade.pnl).filter (fun v => decide (0 < v))).length = winningCount ts := by
  induction ts with
  | nil => rfl
  | cons t ts ih =>
    simp only [winningCount, List.map_cons, List.filter_cons] at *
    by_cases h : 0 < t.pnl
    · simp [h, ih]
    · simp [h, ih]

/-- On a non-empty list createHistogramData takes the real-bins branch. -/
lemma createHistogramData_cons (t : Trade) (ts : List Trade) :
    createHistogramData (t :: ts) =
      binDefs.map (fun b =>
        ⟨b.range, (((t :: ts).map Trade.pnl).filter (inBin b.lo b.hi)).length, b.color⟩) := by
  simp [createHistogramData]

/-- For a non-empty trade list the histogram bin counts sum to the number of
trades. -/
lemma histTotal_of_ne (ts : List Trade) (h : ts ≠ []) :
    histTotalTrades ts = ts.length := by
  match ts, h with
  | t :: ts, _ =>
    rw [histTotalTrades, createHistogramData_cons]
    simp only [binDefs, List.map_cons, List.map_nil, List.foldl, List.length_cons]
    have hc := counts_total (t.pnl :: List.map Trade.pnl ts)
    simp only [List.length_cons, List.length_map] at hc
    omega

/-- For a non-empty trade list the winner bins count the trades with
positive pnl. -/
lemma histWin_of_ne (ts : List Trade) (h : ts ≠ []) :
    histWinningTrades ts = winningCount ts := by
  match ts, h with
  | t :: ts, _ =>
    rw [histWinningTrades, createHistogramData_cons]
    simp only [binDefs, List.map_cons, List.map_nil]
    simp [List.enum, List.enumFrom, List.filter_cons, List.foldl]
    have hw := counts_win (t.pnl :: List.map Trade.pnl ts)
    have hp := count_pos_map (t :: ts)
    simp only [List.map_cons] at hp
    simp only [List.filter_cons] at hw hp
    omega

/-- Winner and loser bin counts together equal the histogram total. -/
lemma histWinLose_of_ne (ts : List Trade) (h : ts ≠ []) :
    histWinningTrades ts + histLosingTrades ts = histTotalTrades ts := by
  match ts, h with
  | t :: ts, _ =>
    rw [histWinningTrades, histLosingTrades, histTotalTrades, createHistogramData_cons]
    simp only [binDefs, List.map_cons, List.map_nil]
    simp [List.enum, List.enumFrom, List.filter_cons, List.foldl]
    omega

/-- The processDrawdownData fold refines the spec-worded equity curve and
decline-from-peak formulas, for any positive starting peak. -/
lemma pddAux_spec : ∀ (ts : List Trade) (e p : ℚ), 0 < p →
    pddAux e p ts =
      (ts.zip (((specEquityAux e (ts.map Trade.pnl)).zip
          (runningPeaks p (specEquityAux e (ts.map Trade.pnl)))).map
        (fun pe => (pe.2 - pe.1) / pe.2 * 100))).map
        (fun td => ⟨splitAtT (td.1.exit_time.getD ""), round2 td.2⟩) := by
  intro ts
  induction ts with
  | nil => intro e p _; rfl
  | cons t rest ih =>
    intro e p hp
    have hp2 : 0 < max p (e * (1 + t.pnl / 100)) := lt_of_lt_of_le hp (le_max_left _ _)
    simp only [pddAux, List.map_cons, specEquityAux, runningPeaks, List.zip_cons_cons,
      if_pos hp2]
    rw [ih _ _ hp2]

/-- The two-trade input is already filtered and sorted. -/
lemma c2_sorted : sortByExitKey (c2trades.filter keepExit) = c2trades := by
  simp [c2trades, sortByExitKey, keepExit, insertByExitKey, exitKey]
  decide

/-- Every trade a step emits closes the incoming open position at the bar
being processed, unforced. -/
lemma stepBar_trades (cfg : ExecCfg) (eF xF : ℕ → Bool) (i : ℕ) (b : Bar)
    (pos : Option Position) (cap : ℚ) :
    ∀ t ∈ (stepBar cfg eF xF i b pos cap).1,
      ∃ p, pos = some p ∧ t.entryTs = p.entryTs ∧ t.exitTs = b.ts ∧ t.forced = false := by
  rcases pos with _ | p
  · simp only [stepBar]
    split <;> simp
  · simp only [stepBar]
    split_ifs <;> simp [exitWith, closeTrade]

/-- A step that emits a trade returns to the FLAT state. -/
lemma stepBar_emit_flat (cfg : ExecCfg) (eF xF : ℕ → Bool) (i : ℕ) (b : Bar)
    (pos : Option Position) (cap : ℚ) :
    (stepBar cfg eF xF i b pos cap).1 ≠ [] → (stepBar cfg eF xF i b pos cap).2.1 = none := by
  rcases pos with _ | p
  · simp only [stepBar]
    split <;> simp
  · simp only [stepBar]
    split_ifs <;> simp [exitWith]

/-- A position open after a step is either the incoming one or was opened at
the processed bar. -/
lemma stepBar_pos_char (cfg : ExecCfg) (eF xF : ℕ → Bool) (i : ℕ) (b : Bar)
    (pos : Option Position) (cap : ℚ) :
    ∀ p2, (stepBar cfg eF xF i b pos cap).2.1 = some p2 →
      pos = some p2 ∨ p2.entryTs = b.ts := by
  rcases pos with _ | p
  · simp only [stepBar]
    split
    · intro p2 hp2
      simp at hp2
      right
      rw [← hp2]
    · simp
  · simp only [stepBar]
    split_ifs <;> simp [exitWith]

/-- A step emits no trade or exactly one. -/
lemma stepBar_shape (cfg : ExecCfg) (eF xF : ℕ → Bool) (i : ℕ) (b : Bar)
    (pos : Option Position) (cap : ℚ) :
    (stepBar cfg eF xF i b pos cap).1 = [] ∨
    ∃ t, (stepBar cfg eF xF i b pos cap).1 = [t] := by
  rcases pos with _ | p
  · simp only [stepBar]
    split <;> simp
  · simp only [stepBar]
    split_ifs <;> simp [exitWith]

/-- Soundness of the bar loop: over a strictly time-ordered series, every
emitted trade exits at a bar of the series at or after its entry, equality
only for a forced close, and the trade list is chronologically
non-overlapping. -/
lemma runAux_sound (cfg : ExecCfg) (eF xF : ℕ → Bool) :
    ∀ (bars : List Bar) (i : ℕ) (pos : Option Position) (cap : ℚ),
      List.Pairwise (fun a b => a.ts < b.ts) bars →
      (∀ p, pos = some p → ∀ b ∈ bars, p.entryTs < b.ts) →
      (∀ t ∈ runAux cfg eF xF i pos cap bars,
          t.entryTs ≤ t.exitTs ∧ (t.entryTs = t.exitTs → t.forced = true) ∧
          (∃ b ∈ bars, t.exitTs = b.ts) ∧
          ((∃ b ∈ bars, t.entryTs = b.ts) ∨ ∃ p, pos = some p ∧ t.entryTs = p.entryTs)) ∧
      List.Chain' (fun a b => a.exitTs < b.entryTs) (runAux cfg eF xF i pos cap bars) := by
  intro bars
  induction bars with
  | nil =>
    intro i pos cap _ _
    constructor
    · intro t ht
      simp [runAux] at ht
    · simp [runAux]
  | cons b rest ih =>
    intro i pos cap hmono hpos
    have hmt := List.pairwise_cons.1 hmono
    rcases rest with _ | ⟨r, rs⟩
    · have hrw : runAux cfg eF xF i pos cap [b] =
          (stepBar cfg eF xF i b pos cap).1 ++
            forceClose cfg (stepBar cfg eF xF i b pos cap).2.1 b := by
        simp [runAux]
      constructor
      · intro t ht
        rw [hrw] at ht
        rcases List.mem_append.1 ht with hts | htf
        · rcases stepBar_trades cfg eF xF i b pos cap t hts with ⟨p, hpose, he, hx, hf⟩
          have hlt : p.entryTs < b.ts := hpos p hpose b (List.mem_singleton_self b)
          refine ⟨?_, ?_, ⟨b, List.mem_singleton_self b, hx⟩, Or.inr ⟨p, hpose, he⟩⟩
          · rw [he, hx]; exact le_of_lt hlt
          · intro hEq
            rw [he, hx] at hEq
            exact absurd hEq (ne_of_lt hlt)
        · rcases hs2 : (stepBar cfg eF xF i b pos cap).2.1 with _ | p2
          · rw [hs2] at htf
            simp [forceClose] at htf
          · rw [hs2] at htf
            simp only [forceClose, List.mem_singleton] at htf
            subst htf
            rcases stepBar_pos_char cfg eF xF i b pos cap p2 hs2 with hsame | hnew
            · have hlt : p2.entryTs < b.ts := hpos p2 hsame b (List.mem_singleton_self b)
              refine ⟨le_of_lt hlt, ?_, ⟨b, List.mem_singleton_self b, rfl⟩,
                Or.inr ⟨p2, hsame, rfl⟩⟩
              intro hEq
              exact absurd hEq (ne_of_lt hlt)
            · refine ⟨?_, fun _ => rfl, ⟨b, List.mem_singleton_self b, rfl⟩,
                Or.inl ⟨b, List.mem_singleton_self b, hnew⟩⟩
              simp [closeTrade, hnew]
      · rw [hrw]
        rcases stepBar_shape cfg eF xF i b pos cap with hs1 | ⟨t0, hs1⟩
        · rw [hs1]
          rcases hs2 : (stepBar cfg eF xF i b pos cap).2.1 with _ | p2 <;>
            simp [forceClose]
        · have hflat := stepBar_emit_flat cfg eF xF i b pos cap (by rw [hs1]; simp)
          rw [hs1, hflat]
          simp [forceClose]
    · have hrw : runAux cfg eF xF i pos cap (b :: r :: rs) =
          (stepBar cfg eF xF i b pos cap).1 ++
            runAux cfg eF xF (i + 1) (stepBar cfg eF xF i b pos cap).2.1
              (stepBar cfg eF xF i b pos cap).2.2 (r :: rs) := by
        simp [runAux]
      have hpos2 : ∀ p, (stepBar cfg eF xF i b pos cap).2.1 = some p →
          ∀ b2 ∈ r :: rs, p.entryTs < b2.ts := by
        intro p hp b2 hb2
        rcases stepBar_pos_char cfg eF xF i b pos cap p hp with hsame | hnew
        · exact hpos p hsame b2 (List.mem_cons_of_mem b hb2)
        · rw [hnew]
          exact hmt.1 b2 hb2
      have hIH := ih (i + 1) (stepBar cfg eF xF i b pos cap).2.1
        (stepBar cfg eF xF i b pos cap).2.2 hmt.2 hpos2
      constructor
      · intro t ht
        rw [hrw] at ht
        rcases List.mem_append.1 ht with hts | htr
        · rcases stepBar_trades cfg eF xF i b pos cap t hts with ⟨p, hpose, he, hx, hf⟩
          have hlt : p.entryTs < b.ts := hpos p hpose b (List.mem_cons_self b _)
          refine ⟨?_, ?_, ⟨b, List.mem_cons_self b _, hx⟩, Or.inr ⟨p, hpose, he⟩⟩
          · rw [he, hx]; exact le_of_lt hlt
          · intro hEq
            rw [he, hx] at hEq
            exact absurd hEq (ne_of_lt hlt)
        · rcases hIH.1 t htr with ⟨h1, h2, ⟨b2, hb2, hx2⟩, hentry⟩
          refine ⟨h1, h2, ⟨b2, List.mem_cons_of_mem b hb2, hx2⟩, ?_⟩
          rcases hentry with ⟨b3, hb3, he3⟩ | ⟨p, hp, he3⟩
          · exact Or.inl ⟨b3, List.mem_cons_of_mem b hb3, he3⟩
          · rcases stepBar_pos_char cfg eF xF i b pos cap p hp with hsame | hnew
            · exact Or.inr ⟨p, hsame, he3⟩
            · exact Or.inl ⟨b, List.mem_cons_self b _, by rw [he3, hnew]⟩
      · rw [hrw]
        rcases stepBar_shape cfg eF xF i b pos cap with hs1 | ⟨t0, hs1⟩
        · rw [hs1]
          simpa using hIH.2
        · have hflat := stepBar_emit_flat cfg eF xF i b pos cap (by rw [hs1]; simp)
          rw [hs1]
          rw [List.singleton_append]
          refine List.chain'_cons'.2 ⟨?_, hIH.2⟩
          intro t1 ht1
          have ht1mem : t1 ∈ runAux cfg eF xF (i + 1) (stepBar cfg eF xF i b pos cap).2.1
              (stepBar cfg eF xF i b pos cap).2.2 (r :: rs) := List.mem_of_mem_head? ht1
          rcases hIH.1 t1 ht1mem with ⟨-, -, -, hentry⟩
          have hx0 : t0.exitTs = b.ts := by
            rcases stepBar_trades cfg eF xF i b pos cap t0 (by rw [hs1]; simp)
              with ⟨p, -, -, hx, -⟩
            exact hx
          rcases hentry with ⟨b3, hb3, he3⟩ | ⟨p, hp, -⟩
          · rw [hx0, he3]
            exact hmt.1 b3 hb3
          · rw [hflat] at hp
            exact absurd hp (by simp)

/-- Reading an untouched address is unaffected by allocating a fresh array
and writing to it. -/
lemma readArr_alloc_write_old (h : Heap) (v w : List Trade) (a : ℕ) (ha : a < h.length) :
    readArr (writeArr (h ++ [v]) h.length w) a = readArr h a := by
  unfold readArr writeArr
  rw [List.getD_eq_getElem?_getD, List.getD_eq_getElem?_getD, List.getElem?_set_ne
    (by omega)]
  rw [List.getElem?_append_left ha]

/-- Reading the freshly allocated address after the write yields the written
array. -/
lemma readArr_alloc_write_new (h : Heap) (v w : List Trade) :
    readArr (writeArr (h ++ [v]) h.length w) h.length = w := by
  unfold readArr writeArr
  rw [List.getD_eq_getElem?_getD, List.getElem?_set_self (by simp)]
  simp

/-- Reading the address of a fresh allocation yields the allocated array. -/
lemma readArr_append_self (h : Heap) (v : List Trade) :
    readArr (h ++ [v]) h.length = v := by
  unfold readArr
  rw [List.getD_eq_getElem?_getD, List.getElem?_append_right (le_refl _)]
  simp

/-- The store program computes exactly the pure processDrawdownData of the
array contents it was given. -/
lemma pddProg_val (h : Heap) (a : ℕ) :
    (pddProg h a).2 = processDrawdownData (readArr h a) := by
  simp only [pddProg, allocArr]
  rw [readArr_alloc_write_new, readArr_append_self]
  rfl

/-! ## Claim theorems -/

/-- Claim C1, amended: the Total Return % presented by the dashboard (both
the page summaryStats and the PerformanceDashboard component) is the plain
sum of the pnl_pct values of the trades, not the compounded figure. -/
theorem c1_theorem : ∀ ts : List Trade,
    summaryTotalReturn ts = (ts.map Trade.pnl).sum ∧
    dashTotalReturn ts = (ts.map Trade.pnl).sum := by
  intro ts
  constructor
  · rw [summaryTotalReturn, foldl_add_pnl]; ring
  · rw [dashTotalReturn, foldl_add_pnl]; ring

/-- Claim C1 counterexample: for two trades of +10 percent each the
presented Total Return is 20 while the compounded figure of the claim is 21,
so the presented value is not the compounded one. -/
theorem c1_counterexample :
    summaryTotalReturn c1trades = 20 ∧ dashTotalReturn c1trades = 20 ∧
    compoundedTotalReturn c1trades = 21 ∧
    summaryTotalReturn c1trades ≠ compoundedTotalReturn c1trades := by
  refine ⟨?_, ?_, ?_, ?_⟩ <;>
    norm_num [summaryTotalReturn, dashTotalReturn, compoundedTotalReturn, c1trades, Trade.pnl]

/-- Claim C2: on a +10 percent then -10 percent trade pair the drawdown
series contains a genuine 10 percent peak-to-trough decline (the spec value
of Max Drawdown), yet the DrawdownChart shows 0 because it takes Math.min
over the non-negative decline values produced by processDrawdownData. -/
theorem c2_theorem :
    ddChartMaxDrawdown (processDrawdownData c2trades) = 0 ∧
    specMaxDrawdown ((sortByExitKey (c2trades.filter keepExit)).map Trade.pnl) = 10 ∧
    (0 : ℚ) ≠ 10 := by
  refine ⟨?_, ?_, by norm_num⟩
  · rw [processDrawdownData, c2_sorted]
    norm_num [ddChartMaxDrawdown, ddChartData, pddAux, c2trades, Trade.pnl, max_def,
      round2, round_eq, mathMin, min_def]
  · rw [c2_sorted]
    norm_num [specMaxDrawdown, specDrawdownSeq, specEquitySeq, specEquityAux,
      runningPeaks, c2trades, Trade.pnl, max_def]

/-- Claim C3, amended: the drawdown series built by processDrawdownData is
derived from the compounded equity curve of the filtered, exit-time-sorted
trades, each point being the percentage decline of equity from its running
peak, rounded to two decimals; (the overview dashboard series is not of this
form, see the counterexample). -/
theorem c3_theorem : ∀ ts : List Trade,
    processDrawdownData ts =
      ((sortByExitKey (ts.filter keepExit)).zip
        (specDrawdownSeq ((sortByExitKey (ts.filter keepExit)).map Trade.pnl))).map
        (fun td => ⟨splitAtT (td.1.exit_time.getD ""), round2 td.2⟩) := by
  intro ts
  exact pddAux_spec _ 100 100 (by norm_num)

/-- Claim C3 counterexample: for a +10 percent then -10 percent trade pair
the overview dashboard's drawdown series ends at -100 while the compounded
percentage decline from the running peak is 10, so not every produced
drawdown series is derived from the compounded equity curve. -/
theorem c3_counterexample :
    (dashDrawdownSeries c3trades).map DrawdownPoint.drawdown = [0, -100] ∧
    specDrawdownSeq (c3trades.map Trade.pnl) = [0, 10] ∧
    ((-100 : ℚ) ≠ 10 ∧ (-100 : ℚ) ≠ -10) := by
  refine ⟨?_, ?_, by norm_num, by norm_num⟩
  · norm_num [dashDrawdownSeries, dashSeriesAux, c3trades, Trade.pnl, max_def]
  · norm_num [specDrawdownSeq, specEquitySeq, specEquityAux, runningPeaks, c3trades,
      Trade.pnl, max_def]

/-- Claim C4, amended: with zero trades the dashboard summary Win Rate and
Total Return are 0, but the PnLHistogram substitutes hard-coded demo bins
(61 fabricated trades, win rate 3400/61 percent) and the DrawdownChart
substitutes a sample series whose displayed Max Drawdown is -5.8 percent. -/
theorem c4_theorem :
    summaryWinRate [] = 0 ∧ summaryTotalReturn [] = 0 ∧
    dashWinRate [] = 0 ∧ dashTotalReturn [] = 0 ∧
    createHistogramData [] = histDemoData ∧ histWinRate [] = 3400 / 61 ∧
    processDrawdownData [] = [] ∧ ddChartData (processDrawdownData []) = ddSampleData ∧
    ddChartMaxDrawdown (processDrawdownData []) = -29/5 := by
  have h1 : histTotalTrades [] = 61 := by decide
  have h2 : histWinningTrades [] = 34 := by decide
  refine ⟨by simp [summaryWinRate], by simp [summaryTotalReturn], by simp [dashWinRate],
    by simp [dashTotalReturn], rfl, ?_, rfl, rfl, ?_⟩
  · rw [histWinRate, h1, h2]; norm_num
  · norm_num [ddChartMaxDrawdown, ddChartData, processDrawdownData, sortByExitKey, pddAux,
      ddSampleData, mathMin, min_def]

/-- Claim C4 counterexample: with zero trades the DrawdownChart presents a
Max Drawdown of -5.8 percent, not 0, because sample data is substituted. -/
theorem c4_counterexample :
    ddChartMaxDrawdown (processDrawdownData []) = -29/5 ∧ ((-29 : ℚ)/5) ≠ 0 ∧
    histWinningTrades [] = 34 ∧ ([] : List Trade).length = 0 := by
  refine ⟨?_, by norm_num, by decide, rfl⟩
  norm_num [ddChartMaxDrawdown, ddChartData, processDrawdownData, sortByExitKey, pddAux,
    ddSampleData, mathMin, min_def]

/-- Claim C5, amended: the dashboard summary and PerformanceDashboard Win
Rates equal winners/total*100 with 0 on an empty list, and the PnLHistogram
Win Rate equals winners/total*100 for every non-empty trade list; on an
empty list the histogram instead reports the demo-data rate. -/
theorem c5_theorem : ∀ ts : List Trade,
    summaryWinRate ts = specWinRate ts ∧ dashWinRate ts = specWinRate ts ∧
    (ts ≠ [] → histWinRate ts = specWinRate ts) := by
  intro ts
  by_cases h : ts = []
  · subst h
    refine ⟨by simp [summaryWinRate, specWinRate], by simp [dashWinRate, specWinRate],
      by simp⟩
  · have hl : ts.length ≠ 0 := by simpa [List.length_eq_zero] using h
    have hpos : 0 < ts.length := Nat.pos_of_ne_zero hl
    refine ⟨?_, ?_, fun _ => ?_⟩
    · rw [summaryWinRate, specWinRate, if_pos hpos, if_neg hl, winningCount]
    · rw [dashWinRate, specWinRate, if_pos hpos, if_neg hl, winningCount]
    · rw [histWinRate, histTotal_of_ne ts h, histWin_of_ne ts h, if_pos hpos,
        specWinRate, if_neg hl, winningCount]

/-- Claim C5 witness: the histogram Win Rate agrees with the spec formula on
a concrete non-empty trade list. -/
theorem c5_witness : histWinRate c5witnessTrades = specWinRate c5witnessTrades :=
  (c5_theorem c5witnessTrades).2.2 (by decide)

/-- Claim C5 counterexample: with no trades the PnLHistogram Win Rate is
3400/61 (about 55.7 percent), not 0. -/
theorem c5_counterexample : histWinRate [] = 3400 / 61 ∧ ((3400 : ℚ) / 61) ≠ 0 := by
  have h1 : histTotalTrades [] = 61 := by decide
  have h2 : histWinningTrades [] = 34 := by decide
  refine ⟨?_, by norm_num⟩
  rw [histWinRate, h1, h2]; norm_num

/-- Claim C6, amended: every metric entry that survives the validMetrics
filter and reaches rendering has a value that is not NaN (null, undefined
and NaN entries are dropped); Infinity is not filtered, see the
counterexample. -/
theorem c6_theorem : ∀ (ms : List (String × Option JSNum)) (p : String × Option JSNum),
    p ∈ validMetrics ms → ∀ v : JSNum, p.2 = some v → v.isNaN = false := by
  intro ms p hp v hv
  rcases List.mem_filter.1 hp with ⟨-, hcond⟩
  rw [hv] at hcond
  simpa using hcond

/-- Claim C6 witness: a finite metric entry passes the filter and its value
is not NaN. -/
theorem c6_witness : JSNum.isNaN (.finite 1) = false :=
  c6_theorem [("sharpe", some (.finite 1))] ("sharpe", some (.finite 1))
    (by decide) (.finite 1) rfl

/-- Claim C6 counterexample: an entry whose value is Infinity passes the
validMetrics filter and is rendered, because the filter only tests isNaN. -/
theorem c6_counterexample :
    ("profit_factor", some JSNum.inf) ∈ validMetrics [("profit_factor", some JSNum.inf)] := by
  decide

/-- Claim C7, amended: the operator set offered by the strategy builder is
exactly the spec set with the not-equal operator removed: greater, less,
greater-or-equal, less-or-equal, equal, cross_above, cross_below. -/
theorem c7_theorem :
    OPERATORS.map OperatorOption.value = specOperators.filter (fun s => s ≠ "!=") := by
  decide

/-- Claim C7 counterexample: the not-equal operator is in the spec's
operator set but is not offered by the strategy builder UI. -/
theorem c7_counterexample :
    "!=" ∈ specOperators ∧ "!=" ∉ OPERATORS.map OperatorOption.value := by
  decide

/-- Claim C8, amended (spec-modelled execution engine): over a strictly
time-ordered bar series at most one position is open at a time, emitted
trades are chronologically non-overlapping, every trade's exit timestamp is
at or after its entry timestamp, and equality occurs only for the forced
close of a position entered on the final bar. -/
theorem c8_theorem (cfg : ExecCfg) (eF xF : ℕ → Bool) (bars : List Bar)
    (hmono : List.Pairwise (fun a b => a.ts < b.ts) bars) :
    (∀ t ∈ runEngine cfg eF xF bars,
        t.entryTs ≤ t.exitTs ∧ (t.entryTs = t.exitTs → t.forced = true)) ∧
    List.Chain' (fun a b => a.exitTs < b.entryTs) (runEngine cfg eF xF bars) := by
  have h := runAux_sound cfg eF xF bars 0 none cfg.capital hmono (by simp)
  exact ⟨fun t ht => ⟨(h.1 t ht).1, (h.1 t ht).2.1⟩, h.2⟩

/-- Claim C8 witness: the engine guarantees hold on a concrete two-bar
series with an entry signal on the first bar and an exit on the second. -/
theorem c8_witness :
    (∀ t ∈ runEngine c8wcfg (fun i => decide (i = 0)) (fun i => decide (i = 1)) c8wbars,
        t.entryTs ≤ t.exitTs ∧ (t.entryTs = t.exitTs → t.forced = true)) ∧
    List.Chain' (fun a b => a.exitTs < b.entryTs)
      (runEngine c8wcfg (fun i => decide (i = 0)) (fun i => decide (i = 1)) c8wbars) :=
  c8_theorem c8wcfg (fun i => decide (i = 0)) (fun i => decide (i = 1)) c8wbars
    (by decide)

/-- Claim C8 counterexample: an entry signal on the final bar of a one-bar
series is force-closed on that same bar, producing a trade whose exit
timestamp equals its entry timestamp, so exit is not strictly after entry. -/
theorem c8_counterexample :
    (runEngine c8cfg (fun _ => true) (fun _ => false) [c8bar]).map
      (fun t => (t.entryTs, t.exitTs, t.forced)) = [(5, 5, true)] := by
  norm_num [runEngine, runAux, stepBar, forceClose, closeTrade, c8cfg, c8bar]

/-- Claim C9, amended: for every non-empty trade list the eight histogram
bins partition the pnl values, so the bin counts sum to the number of
trades, the winner bins count exactly the trades with positive pnl, and
winners plus losers equal the total; the empty list instead yields the demo
bins, see the counterexample. -/
theorem c9_theorem : ∀ ts : List Trade, ts ≠ [] →
    histTotalTrades ts = ts.length ∧
    histWinningTrades ts + histLosingTrades ts = histTotalTrades ts ∧
    histWinningTrades ts = winningCount ts := by
  intro ts h
  exact ⟨histTotal_of_ne ts h, histWinLose_of_ne ts h, histWin_of_ne ts h⟩

/-- Claim C9 witness: the partition facts hold for a concrete three-trade
list containing a winner, a breakeven trade and a loser. -/
theorem c9_witness :
    histTotalTrades c9witnessTrades = c9witnessTrades.length ∧
    histWinningTrades c9witnessTrades + histLosingTrades c9witnessTrades =
      histTotalTrades c9witnessTrades ∧
    histWinningTrades c9witnessTrades = winningCount c9witnessTrades :=
  c9_theorem c9witnessTrades (by decide)

/-- Claim C9 counterexample: on the empty trade list the demo fallback makes
the bin counts sum to 61 rather than the number of trades, which is 0. -/
theorem c9_counterexample :
    histTotalTrades [] = 61 ∧ ([] : List Trade).length = 0 ∧ (61 : ℕ) ≠ 0 := by
  refine ⟨by decide, rfl, by decide⟩

/-- Claim C10: the three data-transformation functions are deterministic and
side-effect-free: the store program of processDrawdownData leaves the
caller's array unchanged (the sort mutates only the fresh filtered copy)
and computes a pure function of the array contents, so a repeated call
returns the identical output; the heatmap and histogram programs do not
write to the store at all and are likewise repeatable. -/
theorem c10_theorem : ∀ (h : Heap) (a : ℕ) (fmt : String → String × String),
    a < h.length →
    (readArr (pddProg h a).1 a = readArr h a ∧
     (pddProg h a).2 = processDrawdownData (readArr h a) ∧
     (pddProg ((pddProg h a).1) a).2 = (pddProg h a).2) ∧
    ((heatProg fmt h a).1 = h ∧
     (heatProg fmt ((heatProg fmt h a).1) a).2 = (heatProg fmt h a).2) ∧
    ((histProg h a).1 = h ∧ (histProg ((histProg h a).1) a).2 = (histProg h a).2) := by
  intro h a fmt ha
  have hr : readArr (pddProg h a).1 a = readArr h a := by
    simp only [pddProg, allocArr]
    exact readArr_alloc_write_old h _ _ a ha
  refine ⟨⟨hr, pddProg_val h a, ?_⟩, ⟨rfl, rfl⟩, ⟨rfl, rfl⟩⟩
  rw [pddProg_val, pddProg_val, hr]

/-- Claim C10 witness: the no-mutation and repeatability facts hold on a
concrete one-array store. -/
theorem c10_witness :
    (readArr (pddProg c10heap 0).1 0 = readArr c10heap 0 ∧
     (pddProg c10heap 0).2 = processDrawdownData (readArr c10heap 0) ∧
     (pddProg ((pddProg c10heap 0).1) 0).2 = (pddProg c10heap 0).2) ∧
    ((heatProg (fun s => (s, s)) c10heap 0).1 = c10heap ∧
     (heatProg (fun s => (s, s)) ((heatProg (fun s => (s, s)) c10heap 0).1) 0).2 =
       (heatProg (fun s => (s, s)) c10heap 0).2) ∧
    ((histProg c10heap 0).1 = c10heap ∧
     (histProg ((histProg c10heap 0).1) 0).2 = (histProg c10heap 0).2) :=
  c10_theorem c10heap 0 (fun s => (s, s)) (by decide)
